import Mathlib

/-!
Verification of the fetch-orchestration engine of `sellna.ai` (src/scraper.py,
src/config.py) against its natural-language specification.

The scraper is shallowly embedded: pure helpers (`_fingerprint`,
`_decode_response`, `_adjust_delay`) become Lean functions; the stateful parts
(per-domain delay map, the seen-set, the retry loop) become explicit state
passing; each strategy's interaction with the network/browser is abstracted
into an event datatype (the response received, or the fault raised), and the
strategy body is the pure function from that event to the produced
`ScrapeResult` plus the throttle-state effect.  Python floats are modelled as
rationals; byte strings as lists of naturals (byte values).
-/

namespace Scraper

/-! ### Character and list-of-char utilities (Python string primitives) -/

/-- ASCII lower-casing of one character, as `str.lower` acts on ASCII. -/
def lowerChar (c : Char) : Char :=
  if 'A' ≤ c ∧ c ≤ 'Z' then Char.ofNat (c.toNat + 32) else c

/-- `str.lower` on a list of characters. -/
def lowerStr (cs : List Char) : List Char := cs.map lowerChar

/-- Python string comparison: lexicographic by code point (`s1 < s2` etc.).
`lexLe a b` is `a <= b` in Python. -/
def lexLe : List Char → List Char → Bool
  | [], _ => true
  | _ :: _, [] => false
  | a :: as, b :: bs => if a < b then true else if a = b then lexLe as bs else false

/-- Insert into a lexicographically sorted list keeping stability
(equal elements keep order, as Python's stable `sorted`). -/
def sortedInsert (x : List Char) : List (List Char) → List (List Char)
  | [] => [x]
  | y :: ys => if lexLe y x then y :: sortedInsert x ys else x :: y :: ys

/-- Python `sorted` on a list of strings (lexicographic, stable). -/
def sortStrs : List (List Char) → List (List Char)
  | [] => []
  | x :: xs => sortedInsert x (sortStrs xs)

/-- Python `s.split(d)` for a one-character separator: always at least one
piece, empty pieces kept. -/
def splitAll (d : Char) : List Char → List (List Char)
  | [] => [[]]
  | c :: cs =>
    match splitAll d cs with
    | [] => if c = d then [[], []] else [[c]]
    | p :: ps => if c = d then [] :: p :: ps else (c :: p) :: ps

/-- Python `d.join(pieces)` for a one-character separator. -/
def joinChar (d : Char) : List (List Char) → List Char
  | [] => []
  | [p] => p
  | p :: ps => p ++ d :: joinChar d ps

/-- Python `s.split(d, 1)`: the part before the first occurrence of `d`, and
(when `d` occurs) the part after it. -/
def splitOnFirst (d : Char) : List Char → List Char × Option (List Char)
  | [] => ([], none)
  | c :: cs =>
    if c = d then ([], some cs)
    else
      match splitOnFirst d cs with
      | (pre, post) => (c :: pre, post)

/-! ### `urllib.parse.urlparse`, modelled from CPython

`urlsplit` first removes the unsafe bytes tab/CR/LF, then takes a scheme when
the text up to the first `:` is a letter followed by letters, digits, `+`, `-`
or `.` (the scheme is lower-cased by `urlsplit` itself), then a netloc after
`//` up to the first of `/`, `?`, `#`, then splits the fragment at the first
`#` and the query at the first `?`.  `urlparse` additionally splits `;params`
off the last path segment.  (The `_checknetloc` rejection of certain non-NFKC
unicode hosts is out of scope: the model covers URLs it accepts.) -/

def isSchemeChar (c : Char) : Bool :=
  c.isAlpha || c.isDigit || c = '+' || c = '-' || c = '.'

/-- Scan for the `:` ending a scheme; fail on the first non-scheme character. -/
def schemeScan (acc : List Char) : List Char → Option (List Char × List Char)
  | [] => none
  | c :: cs =>
    if c = ':' then some (acc.reverse, cs)
    else if isSchemeChar c then schemeScan (c :: acc) cs
    else none

/-- Split off `scheme:` when present (first char must be an ASCII letter and
every char before the first `:` a scheme char); the scheme is lower-cased. -/
def splitScheme (cs : List Char) : List Char × List Char :=
  match cs with
  | [] => ([], [])
  | c :: rest =>
    if c.isAlpha then
      match schemeScan [c] rest with
      | some (s, r) => (lowerStr s, r)
      | none => ([], cs)
    else ([], cs)

def isNetlocDelim (c : Char) : Bool := c = '/' || c = '?' || c = '#'

/-- After the scheme, `//netloc` extends to the first of `/`, `?`, `#`. -/
def splitNetloc (cs : List Char) : List Char × List Char :=
  match cs with
  | c1 :: c2 :: rest =>
    if c1 = '/' ∧ c2 = '/' then
      (rest.takeWhile (fun c => !isNetlocDelim c), rest.dropWhile (fun c => !isNetlocDelim c))
    else ([], cs)
  | _ => ([], cs)

/-- `_splitparams`: when the path has a `;` in its last segment (after the last
`/` when one exists), split the params off there. -/
def splitParams (cs : List Char) : List Char × List Char :=
  if ';' ∈ cs then
    if '/' ∈ cs then
      -- find the first ';' at or after the last '/'
      let r := splitOnFirst '/' cs.reverse
      let seg := r.1.reverse            -- last path segment (contains no '/')
      let pre := (r.2.getD []).reverse  -- everything before the last '/'
      match splitOnFirst ';' seg with
      | (_, none) => (cs, [])
      | (s1, some ps) => (pre ++ '/' :: s1, ps)
    else
      match splitOnFirst ';' cs with
      | (s1, post) => (s1, post.getD [])
  else (cs, [])

structure UrlParts where
  scheme : List Char
  netloc : List Char
  path : List Char
  params : List Char
  query : List Char
  fragment : List Char
  deriving DecidableEq

/-- The characters `urlsplit` strips from the URL before parsing. -/
def isStrippedUrlChar (c : Char) : Bool := c = '\t' || c = '\r' || c = '\n'

/-- The parse chain after the unsafe-byte strip: scheme, netloc, fragment,
query, params, in `urlsplit`/`urlparse` order. -/
def parseCore (cs : List Char) : UrlParts :=
  let s := splitScheme cs
  let n := splitNetloc s.2
  let fr := splitOnFirst '#' n.2
  let q := splitOnFirst '?' fr.1
  let pp := splitParams q.1
  ⟨s.1, n.1, pp.1, pp.2, q.2.getD [], fr.2.getD []⟩

def urlparseL (url : List Char) : UrlParts :=
  parseCore (url.filter (fun c => !isStrippedUrlChar c))

def urlparse (url : String) : UrlParts := urlparseL url.data

/-! ### Configuration (src/config.py); floats modelled as rationals -/

def MAX_CONCURRENT_REQUESTS : ℕ := 5
def RETRY_TIMES : ℕ := 3
def RETRY_HTTP_CODES : List ℕ := [500, 502, 503, 504, 408, 429]
def MIN_DELAY : ℚ := 1
def MAX_DELAY : ℚ := 5
def AUTOTHROTTLE_TARGET_CONCURRENCY : ℚ := 2

/-! ### `ScrapeResult` -/

structure ScrapeResult where
  url : String
  status : ℕ := 0
  success : Bool := false
  html : String := ""
  error : String := ""
  redirect_chain : List String := []
  elapsed_ms : ℚ := 0
  rendered : Bool := false
  deriving DecidableEq

/-! ### Deduplication (`Scraper._fingerprint`, the seen-set of `scrape_urls`)

`_fingerprint` hashes the normalized URL with SHA-1.  SHA-1 is an external
deterministic digest; it is modelled as the identity encoding of the
normalized string (deterministic and collision-free), so fingerprint equality
is normalized-string equality. -/

/-- The normalized form built from parsed parts: lower-cased scheme `://`
lower-cased netloc, path verbatim, and, when a query exists, `?` followed by
the `&`-split, sorted, `&`-rejoined query. -/
def normOf (p : UrlParts) : List Char :=
  let base := lowerStr p.scheme ++ ':' :: '/' :: '/' :: lowerStr p.netloc ++ p.path
  if p.query = [] then base
  else base ++ '?' :: joinChar '&' (sortStrs (splitAll '&' p.query))

/-- The normalized string whose SHA-1 digest `_fingerprint` returns. -/
def normalizedL (url : List Char) : List Char := normOf (urlparseL url)

def fingerprint (url : String) : List Char := normalizedL url.data

/-- The dedup pass of `scrape_urls`: walk the batch, keeping a URL when its
fingerprint is not yet in the seen-set, and recording the fingerprint.
Returns the unique URLs (first-seen order) and the grown seen-set. -/
def dedupAux (seen : List (List Char)) : List String → List String × List (List Char)
  | [] => ([], seen)
  | url :: urls =>
    let fp := fingerprint url
    if fp ∈ seen then dedupAux seen urls
    else
      match dedupAux (fp :: seen) urls with
      | (uniq, seen') => (url :: uniq, seen')

/-- The unique URLs a fresh `Scraper` (empty seen-set) fetches for a batch. -/
def uniqueUrls (urls : List String) : List String := (dedupAux [] urls).1

/-- `scrape_urls` produces exactly one `ScrapeResult` per unique URL (the
per-URL fetch pipeline is abstracted as `fetch`). -/
def scrapeBatch (fetch : String → ScrapeResult) (urls : List String) : List ScrapeResult :=
  (uniqueUrls urls).map fetch

/-- How many entries of `urls` carry the fingerprint `fp`. -/
def countFp (fp : List Char) (urls : List String) : ℕ :=
  urls.countP (fun u => fingerprint u == fp)

/-! ### Adaptive throttle (`Scraper._get_delay`, `Scraper._adjust_delay`)

The per-domain delay dict `self.delays` is modelled as a function
`String → Option ℚ` (`none` = key absent). -/

/-- Python `max` on two rationals (kernel-reducible form). -/
def ratMax (a b : ℚ) : ℚ := if a ≤ b then b else a

/-- Python `min` on two rationals (kernel-reducible form). -/
def ratMin (a b : ℚ) : ℚ := if a ≤ b then a else b

def Delays := String → Option ℚ

def emptyDelays : Delays := fun _ => none

/-- `_get_delay`: `self.delays.get(domain, config.MIN_DELAY)`. -/
def getDelay (delays : Delays) (domain : String) : ℚ :=
  (delays domain).getD MIN_DELAY

/-- The `new_delay` computed by `_adjust_delay`:
`target_delay = latency / AUTOTHROTTLE_TARGET_CONCURRENCY`,
`new_delay = max(target_delay, (current + target_delay) / 2)` clamped to
`[MIN_DELAY, MAX_DELAY]`, where `current = delays.get(domain, MIN_DELAY)`. -/
def newDelayOf (delays : Delays) (domain : String) (latency : ℚ) : ℚ :=
  let target_delay := latency / AUTOTHROTTLE_TARGET_CONCURRENCY
  let current := (delays domain).getD MIN_DELAY
  ratMax MIN_DELAY (ratMin (ratMax target_delay ((current + target_delay) / 2)) MAX_DELAY)

/-- `_adjust_delay`: store the damped, clamped update, except that on an
error status (`>= 400`) a non-increasing update is discarded. -/
def adjustDelay (delays : Delays) (domain : String) (latency : ℚ) (status : ℕ) : Delays :=
  let new_delay := newDelayOf delays domain latency
  if status ≥ 400 ∧ new_delay ≤ (delays domain).getD MIN_DELAY then delays
  else fun d => if d = domain then some new_delay else delays d

/-- A finite sequence of `record`/`_adjust_delay` calls applied in order. -/
def applyRecords (delays : Delays) : List (String × ℚ × ℕ) → Delays
  | [] => delays
  | (domain, latency, status) :: evs => applyRecords (adjustDelay delays domain latency status) evs

/-! ### Retry loop (`Scraper._fetch_with_retry`)

One attempt of the wrapped strategy either returns a `ScrapeResult` or raises
an exception; the attempt function's behaviour at each invocation index is the
function `ℕ → AttemptOutcome`. -/

inductive AttemptOutcome where
  | result (r : ScrapeResult)
  | fault (name msg : String)
  deriving DecidableEq

/-- `f"{type(exc).__name__}: {exc}"`, the description stored in `last_error`. -/
def attemptDesc : AttemptOutcome → String
  | .result _ => ""
  | .fault n m => n ++ ": " ++ m

def isFault : AttemptOutcome → Bool
  | .result _ => false
  | .fault _ _ => true

structure RetryTrace where
  result : ScrapeResult
  invocations : ℕ
  backoffs : ℕ
  deriving DecidableEq

/-- The loop body of `_fetch_with_retry`.  `i` is the Python `attempt` index,
`rem` the number of attempts still allowed after this one (`retry_times - i`),
so `attempt < retry_times` is `rem > 0`; `inv`/`bo` count invocations of the
attempt function and backoff sleeps so far.  `last_error` is only read on the
fall-through (final attempt raised) path, where it holds the description of
that last fault. -/
def retryAux (f : ℕ → AttemptOutcome) (url : String) (i inv bo : ℕ) : ℕ → RetryTrace
  | 0 =>
    match f i with
    | .result r => ⟨r, inv + 1, bo⟩
    | .fault n m => ⟨{ url := url, error := n ++ ": " ++ m }, inv + 1, bo⟩
  | rem + 1 =>
    match f i with
    | .result r =>
      if r.success then ⟨r, inv + 1, bo⟩
      else if RETRY_HTTP_CODES.contains r.status then
        retryAux f url (i + 1) (inv + 1) (bo + 1) rem
      else ⟨r, inv + 1, bo⟩
    | .fault _ _ => retryAux f url (i + 1) (inv + 1) (bo + 1) rem

/-- `_fetch_with_retry`: run the attempt function for at most
`1 + RETRY_TIMES` invocations. -/
def fetchWithRetry (f : ℕ → AttemptOutcome) (url : String) : RetryTrace :=
  retryAux f url 0 0 0 RETRY_TIMES

/-- An attempt outcome that triggers a retry when attempts remain: a raised
fault, or a returned failure whose status is in `RETRY_HTTP_CODES`. -/
def causesRetry : AttemptOutcome → Bool
  | .fault _ _ => true
  | .result r => !r.success && RETRY_HTTP_CODES.contains r.status

/-! ### Response decoding (`Scraper._decode_response`)

The codec table (`bytes.decode(charset)`) is the Python codec library, an
external collaborator: it is abstracted as a function returning `none` where
Python raises (`UnicodeDecodeError` or `LookupError`), plus the total lossy
decode `raw.decode("utf-8", errors="replace")`.  What is verified is the
repository's own logic: charset selection and the fallback chain. -/

structure Codec where
  decode : String → List ℕ → Option String
  lossy : List ℕ → String

/-- `b.lower()` on a byte. -/
def lowerByte (b : ℕ) : ℕ := if 65 ≤ b ∧ b ≤ 90 then b + 32 else b

/-- The regex class `[a-zA-Z0-9_-]`. -/
def isWordByte (b : ℕ) : Bool :=
  (48 ≤ b && b ≤ 57) || (65 ≤ b && b ≤ 90) || (97 ≤ b && b ≤ 122) || b = 95 || b = 45

/-- The regex class `\s` on bytes: space, `\t`, `\n`, `\r`, `\f`, `\v`. -/
def isSpaceByte (b : ℕ) : Bool := b = 32 || b = 9 || b = 10 || b = 13 || b = 12 || b = 11

/-- `"` or `'`. -/
def isQuoteByte (b : ℕ) : Bool := b = 34 || b = 39

/-- Consume `pat` (given lower-case) case-insensitively from the head of `bs`. -/
def stripCi : List ℕ → List ℕ → Option (List ℕ)
  | [], bs => some bs
  | _ :: _, [] => none
  | p :: ps, b :: bs => if lowerByte b = p then stripCi ps bs else none

/-- The bytes of `charset=`. -/
def charsetKey : List ℕ := [99, 104, 97, 114, 115, 101, 116, 61]

/-- Match `charset=["']?\s*([a-zA-Z0-9_-]+)` (case-insensitive) anchored at the
head of `bs`, returning the captured group.  The three character classes are
pairwise disjoint, so the greedy left-to-right match is complete. -/
def matchCharsetAt (bs : List ℕ) : Option (List ℕ) :=
  match stripCi charsetKey bs with
  | none => none
  | some rest =>
    let rest1 := match rest with
      | b :: tl => if isQuoteByte b then tl else b :: tl
      | [] => []
    let rest2 := rest1.dropWhile isSpaceByte
    match rest2.takeWhile isWordByte with
    | [] => none
    | w => some w

/-- `re.search`: the leftmost position where the charset pattern matches. -/
def searchCharset : List ℕ → Option (List ℕ)
  | [] => none
  | b :: bs =>
    match matchCharsetAt (b :: bs) with
    | some w => some w
    | none => searchCharset bs

/-- `match.group(1).decode("ascii", errors="ignore")`: word bytes are ASCII,
so this is the byte-to-char embedding. -/
def bytesToStr (bs : List ℕ) : String := String.mk (bs.map Char.ofNat)

/-- ASCII bytes of a string; used to build concrete byte bodies. -/
def strBytes (s : String) : List ℕ := s.data.map Char.toNat

/-- Python `pat in hay` substring test. -/
def hasSubstr : List Char → List Char → Bool
  | [], pat => pat.isEmpty
  | c :: cs, pat => pat.isPrefixOf (c :: cs) || hasSubstr cs pat

/-- `_decode_response`.  `contentType` is the `content-type` header, `text` is
`response.text` (httpx's decode, used when the header declares a charset),
`raw` is `response.content`. -/
def decodeResponse (codec : Codec) (contentType text : String) (raw : List ℕ) : String :=
  if hasSubstr (lowerStr contentType.data) "charset".data then text
  else
    let head := raw.take 4096
    let viaDeclared : Option String :=
      match searchCharset head with
      | some w => codec.decode (bytesToStr w) raw
      | none => none
    match viaDeclared with
    | some s => s
    | none =>
      match codec.decode "utf-8" raw with
      | some s => s
      | none =>
        match codec.decode "latin-1" raw with
        | some s => s
        | none =>
          match codec.decode "cp1252" raw with
          | some s => s
          | none => codec.lossy raw

/-! ### Fetch strategies (`Scraper._fetch_static`, `Scraper._fetch_js`)

Each strategy's interaction with the outside world during one attempt is an
event: the response that came back, or the fault the I/O raised.  The strategy
body is the pure function from the event (plus the current throttle state) to
what the attempt produces — a returned `ScrapeResult` or a propagated
exception — together with the new throttle state and the number of
`_adjust_delay` calls performed.  The pre-attempt jittered sleep
(`delay + delay*U(0,0.5)`) affects timing only, not any produced value. -/

/-- `round(x, 1)` (Mathlib `round` rounds half up where Python rounds half to
even; the difference is confined to exact midpoints of `elapsed_ms`, which no
claim touches). -/
def roundTo1 (q : ℚ) : ℚ := (round (q * 10) : ℤ) / 10

/-- What the world did during one static attempt: `httpx` returned a response
(final URL after redirects, redirect history, headers, decoded text, raw
body, elapsed wall-clock ms), or `client.get` raised. -/
inductive StaticEvent where
  | response (status : ℕ) (finalUrl : String) (history : List String)
      (contentType text : String) (body : List ℕ) (elapsedMs : ℚ)
  | fault (name msg : String)

/-- What one attempt produced: `.ok` a returned result, `.error` a propagated
exception (type name, message); plus the throttle state after the attempt and
how many `_adjust_delay` calls ran. -/
structure AttemptExec where
  outcome : Except (String × String) ScrapeResult
  delays : Delays
  adjustCalls : ℕ

/-- The `ScrapeResult` built by `_fetch_static` from a received response. -/
def staticResult (codec : Codec) (status : ℕ) (finalUrl : String)
    (history : List String) (contentType text : String) (body : List ℕ)
    (elapsedMs : ℚ) : ScrapeResult :=
  let success := 200 ≤ status && status < 400
  { url := finalUrl
    status := status
    success := success
    html := if success then decodeResponse codec contentType text body else ""
    error := if success then "" else "HTTP " ++ toString status
    redirect_chain := history
    elapsed_ms := roundTo1 elapsedMs
    rendered := false }

/-- `_fetch_static`: on a response, one `_adjust_delay` with the elapsed
seconds and the status, then the outcome record; a raise from `client.get`
propagates with no throttle update. -/
def fetchStatic (codec : Codec) (delays : Delays) (url : String)
    (ev : StaticEvent) : AttemptExec :=
  let domain := String.mk (urlparse url).netloc
  match ev with
  | .fault n m => ⟨.error (n, m), delays, 0⟩
  | .response status finalUrl history ct text body elapsedMs =>
    ⟨.ok (staticResult codec status finalUrl history ct text body elapsedMs),
     adjustDelay delays domain (elapsedMs / 1000) status,
     1⟩

/-- What the world did during one rendering attempt: `_get_browser` yielded no
browser; navigation plus content capture completed (a `None` response is
status 0); or something in the `try` block raised. -/
inductive JsEvent where
  | noBrowser
  | navigated (status : ℕ) (content : String) (elapsedMs : ℚ)
  | fault (msg : String)

/-- The `ScrapeResult` built by `_fetch_js` from a completed navigation: the
rendered page content is captured into `html` whether or not the status is a
success. -/
def jsResult (status : ℕ) (url content : String) (elapsedMs : ℚ) : ScrapeResult :=
  let success := 200 ≤ status && status < 400
  { url := url
    status := status
    success := success
    html := content
    error := if success then "" else "HTTP " ++ toString status
    elapsed_ms := roundTo1 elapsedMs
    rendered := true }

/-- `_fetch_js`: a completed navigation performs one `_adjust_delay`; a raise
inside the `try` is caught into a failure result (`error = str(e)`,
`rendered = True`) with no throttle update; a missing browser returns early
with no update (and `rendered` left at its default `False`). -/
def fetchJs (delays : Delays) (url : String) (ev : JsEvent) : AttemptExec :=
  let domain := String.mk (urlparse url).netloc
  match ev with
  | .noBrowser => ⟨.ok { url := url, error := "Browser not initialized" }, delays, 0⟩
  | .fault msg => ⟨.ok { url := url, error := msg, rendered := true }, delays, 0⟩
  | .navigated status content elapsedMs =>
    ⟨.ok (jsResult status url content elapsedMs),
     adjustDelay delays domain (elapsedMs / 1000) status,
     1⟩

/-- The returned result of an attempt, when it returned one. -/
def okResult (e : AttemptExec) : Option ScrapeResult :=
  match e.outcome with
  | .ok r => some r
  | .error _ => none

end Scraper

namespace Scraper

/-! ## Helper lemmas -/

theorem newDelayOf_bounds (delays : Delays) (domain : String) (latency : ℚ) :
    MIN_DELAY ≤ newDelayOf delays domain latency ∧
      newDelayOf delays domain latency ≤ MAX_DELAY := by
  unfold newDelayOf ratMax ratMin MIN_DELAY MAX_DELAY
  dsimp only
  split_ifs <;> constructor <;> linarith

theorem adjustDelay_stored (delays : Delays) (domain : String) (latency : ℚ) (status : ℕ)
    (h : ∀ d v, delays d = some v → MIN_DELAY ≤ v ∧ v ≤ MAX_DELAY) :
    ∀ d v, adjustDelay delays domain latency status d = some v →
      MIN_DELAY ≤ v ∧ v ≤ MAX_DELAY := by
  intro d v hv
  unfold adjustDelay at hv
  split at hv
  · exact h d v hv
  · by_cases hd : d = domain
    · subst hd
      simp only [if_pos rfl] at hv
      cases hv
      exact newDelayOf_bounds delays d latency
    · simp only [if_neg hd] at hv
      exact h d v hv

theorem applyRecords_stored (evs : List (String × ℚ × ℕ)) :
    ∀ (delays : Delays), (∀ d v, delays d = some v → MIN_DELAY ≤ v ∧ v ≤ MAX_DELAY) →
      ∀ d v, applyRecords delays evs d = some v → MIN_DELAY ≤ v ∧ v ≤ MAX_DELAY := by
  induction evs with
  | nil => intro delays h; exact h
  | cons ev evs ih =>
    intro delays h
    exact ih _ (adjustDelay_stored delays ev.1 ev.2.1 ev.2.2 h)

theorem retryAux_allFault (f : ℕ → AttemptOutcome) (url : String)
    (h : ∀ i, isFault (f i) = true) :
    ∀ (rem i inv bo : ℕ), retryAux f url i inv bo rem =
      ⟨{ url := url, error := attemptDesc (f (i + rem)) }, inv + rem + 1, bo + rem⟩ := by
  intro rem
  induction rem with
  | zero =>
    intro i inv bo
    cases hf : f i with
    | result r => simpa [isFault, hf] using h i
    | fault n m => simp [retryAux, hf, attemptDesc]
  | succ rem ih =>
    intro i inv bo
    cases hf : f i with
    | result r => simpa [isFault, hf] using h i
    | fault n m =>
      have heq : i + 1 + rem = i + (rem + 1) := by omega
      simp [retryAux, hf, ih (i + 1) (inv + 1) (bo + 1), heq]
      omega

theorem faultDescNeNil (n m : String) : n ++ ": " ++ m ≠ "" := by
  intro hcon
  have hlen := congrArg String.length hcon
  rw [String.length_append, String.length_append] at hlen
  have h2 : (": ").length = 2 := rfl
  have h0 : ("").length = 0 := rfl
  omega

theorem httpErrNeNil (s : String) : "HTTP " ++ s ≠ "" := by
  intro hcon
  have hlen := congrArg String.length hcon
  rw [String.length_append] at hlen
  have h5 : ("HTTP ").length = 5 := rfl
  have h0 : ("").length = 0 := rfl
  omega

theorem schemeScan_append_hash (b : List Char) :
    ∀ (a acc : List Char), schemeScan acc (a ++ '#' :: b) =
      (schemeScan acc a).map (fun p => (p.1, p.2 ++ '#' :: b)) := by
  intro a
  induction a with
  | nil => intro acc; simp [schemeScan, isSchemeChar]
  | cons c a ih =>
    intro acc
    by_cases hc : c = ':'
    · simp [schemeScan, hc]
    · by_cases hsc : isSchemeChar c = true
      · simp [schemeScan, hc, hsc, ih]
      · simp [schemeScan, hc, hsc]

theorem splitScheme_append_hash (a b : List Char) :
    splitScheme (a ++ '#' :: b) = ((splitScheme a).1, (splitScheme a).2 ++ '#' :: b) := by
  cases a with
  | nil => simp [splitScheme]
  | cons c rest =>
    simp only [List.cons_append, splitScheme]
    by_cases hc : c.isAlpha = true
    · rw [schemeScan_append_hash]
      cases hs : schemeScan [c] rest <;> simp [hc, hs]
    · simp [hc]

theorem takeWhile_append_stop (p : Char → Bool) (x : Char) (hx : p x = false) (b : List Char) :
    ∀ r : List Char, (r ++ x :: b).takeWhile p = r.takeWhile p := by
  intro r
  induction r with
  | nil => simp [List.takeWhile, hx]
  | cons c r ih =>
    by_cases hc : p c = true
    · simp [List.takeWhile_cons, hc, ih]
    · simp [List.takeWhile_cons, hc]

theorem dropWhile_append_stop (p : Char → Bool) (x : Char) (hx : p x = false) (b : List Char) :
    ∀ r : List Char, (r ++ x :: b).dropWhile p = r.dropWhile p ++ x :: b := by
  intro r
  induction r with
  | nil => simp [List.dropWhile, hx]
  | cons c r ih =>
    by_cases hc : p c = true
    · simp [List.dropWhile_cons, hc, ih]
    · simp [List.dropWhile_cons, hc]

theorem splitNetloc_append_hash (a b : List Char) :
    splitNetloc (a ++ '#' :: b) = ((splitNetloc a).1, (splitNetloc a).2 ++ '#' :: b) := by
  match a with
  | [] => cases b <;> simp [splitNetloc, isNetlocDelim]
  | [c] =>
    simp only [List.cons_append, List.nil_append, splitNetloc]
    by_cases hc : c = '/' <;> simp [hc]
  | c1 :: c2 :: rest =>
    simp only [List.cons_append, splitNetloc]
    by_cases hc : c1 = '/' ∧ c2 = '/'
    · rcases hc with ⟨h1, h2⟩
      subst h1; subst h2
      rw [if_pos ⟨rfl, rfl⟩, if_pos ⟨rfl, rfl⟩]
      rw [takeWhile_append_stop (fun c => !isNetlocDelim c) '#' (by decide) b rest,
          dropWhile_append_stop (fun c => !isNetlocDelim c) '#' (by decide) b rest]
    · simp [hc]

theorem splitOnFirst_hash_fst (b : List Char) :
    ∀ a : List Char, (splitOnFirst '#' (a ++ '#' :: b)).1 = (splitOnFirst '#' a).1 := by
  intro a
  induction a with
  | nil => simp [splitOnFirst]
  | cons c a ih =>
    by_cases hc : c = '#'
    · simp [splitOnFirst, hc]
    · simp [splitOnFirst, hc, ih]

theorem parseCore_append_hash (a b : List Char) :
    (parseCore (a ++ '#' :: b)).scheme = (parseCore a).scheme ∧
    (parseCore (a ++ '#' :: b)).netloc = (parseCore a).netloc ∧
    (parseCore (a ++ '#' :: b)).path = (parseCore a).path ∧
    (parseCore (a ++ '#' :: b)).params = (parseCore a).params ∧
    (parseCore (a ++ '#' :: b)).query = (parseCore a).query := by
  unfold parseCore
  dsimp only
  rw [splitScheme_append_hash]
  dsimp only
  rw [splitNetloc_append_hash]
  dsimp only
  rw [splitOnFirst_hash_fst]
  exact ⟨rfl, rfl, rfl, rfl, rfl⟩

theorem filter_append_hash (u f : List Char) :
    (u ++ '#' :: f).filter (fun c => !isStrippedUrlChar c) =
      u.filter (fun c => !isStrippedUrlChar c) ++ '#' :: f.filter (fun c => !isStrippedUrlChar c) := by
  rw [List.filter_append]
  simp [List.filter_cons, isStrippedUrlChar]

theorem fingerprint_append_hash (u f : String) :
    fingerprint (u ++ "#" ++ f) = fingerprint u := by
  unfold fingerprint normalizedL urlparseL
  have hdata : (u ++ "#" ++ f).data = u.data ++ '#' :: f.data := by
    simp [String.data_append]
  rw [hdata, filter_append_hash]
  obtain ⟨hs, hn, hp, hpar, hq⟩ := parseCore_append_hash
    (u.data.filter (fun c => !isStrippedUrlChar c)) (f.data.filter (fun c => !isStrippedUrlChar c))
  unfold normOf
  rw [hs, hn, hp, hq]

theorem dedup_countFp :
    ∀ (urls : List String) (seen : List (List Char)) (fp : List Char),
      countFp fp (dedupAux seen urls).1 =
        if fp ∈ seen then 0
        else if urls.any (fun u => fingerprint u == fp) then 1 else 0 := by
  intro urls
  induction urls with
  | nil =>
    intro seen fp
    simp [dedupAux, countFp]
  | cons u us ih =>
    intro seen fp
    by_cases hm : fingerprint u ∈ seen
    · rw [show dedupAux seen (u :: us) = dedupAux seen us from by simp [dedupAux, hm]]
      rw [ih]
      by_cases hfp : fp ∈ seen
      · simp [hfp]
      · have hne : (fingerprint u == fp) = false := by
          rw [beq_eq_false_iff_ne]
          intro he
          exact hfp (he ▸ hm)
        simp [hfp, hne]
    · have hstep : (dedupAux seen (u :: us)).1 = u :: (dedupAux (fingerprint u :: seen) us).1 := by
        simp [dedupAux, hm]
      rw [hstep]
      unfold countFp
      rw [List.countP_cons]
      have ihu := ih (fingerprint u :: seen) fp
      unfold countFp at ihu
      rw [ihu]
      by_cases he : fingerprint u = fp
      · subst he
        simp [hm]
      · have hne : (fingerprint u == fp) = false := by rwa [beq_eq_false_iff_ne]
        have hmem : (fp ∈ fingerprint u :: seen) ↔ (fp ∈ seen) := by
          simp [List.mem_cons, Ne.symm he]
        by_cases hfp : fp ∈ seen
        · simp [hne, hmem, hfp]
        · simp [hne, hmem, hfp]

theorem normOf_path_inj (p1 p2 : UrlParts)
    (hs : p1.scheme = p2.scheme) (hn : p1.netloc = p2.netloc)
    (hq : p1.query = p2.query) (hp : p1.path ≠ p2.path) :
    normOf p1 ≠ normOf p2 := by
  intro hcon
  apply hp
  unfold normOf at hcon
  rw [hs, hn, hq] at hcon
  by_cases h0 : p2.query = []
  · rw [if_pos h0, if_pos h0] at hcon
    simpa using hcon
  · rw [if_neg h0, if_neg h0] at hcon
    simp [List.append_assoc] at hcon
    exact hcon

/-! ## Claim theorems -/

/-- C1: for every URL, if every attempt of the wrapped fetch strategy raises a
transport-level fault, `_fetch_with_retry` invokes the attempt function
exactly `1 + RETRY_TIMES` times and returns exactly one failure outcome
(`success = false`) whose `error` field carries the description of the last
fault raised. -/
theorem C1_retry_transport_exhaustion (f : ℕ → AttemptOutcome) (url : String)
    (h : ∀ i, isFault (f i) = true) :
    (fetchWithRetry f url).invocations = 1 + RETRY_TIMES ∧
    (fetchWithRetry f url).result.success = false ∧
    (fetchWithRetry f url).result.error = attemptDesc (f RETRY_TIMES) := by
  unfold fetchWithRetry
  rw [retryAux_allFault f url h RETRY_TIMES 0 0 0]
  simp [RETRY_TIMES]

theorem C1_retry_transport_exhaustion_witness :
    (fetchWithRetry (fun _ => .fault "ConnectTimeout" "timed out") "http://a.test/x").invocations
        = 1 + RETRY_TIMES ∧
    (fetchWithRetry (fun _ => .fault "ConnectTimeout" "timed out") "http://a.test/x").result.success
        = false ∧
    (fetchWithRetry (fun _ => .fault "ConnectTimeout" "timed out") "http://a.test/x").result.error
        = "ConnectTimeout: timed out" := by
  have h := C1_retry_transport_exhaustion (fun _ => .fault "ConnectTimeout" "timed out")
    "http://a.test/x" (fun i => rfl)
  simpa [attemptDesc] using h

/-- C2: URLs normalizing to the same fingerprint are fetched once per batch
(exactly one outcome for that fingerprint, on a fresh scraper); URLs differing
in path (all other parsed parts equal) get distinct fingerprints, are both
kept by dedup, and produce distinct outcomes. -/
theorem C2_batch_dedup_by_fingerprint :
    (∀ (batch : List String) (u1 u2 : String), u1 ∈ batch → u2 ∈ batch →
      fingerprint u1 = fingerprint u2 →
      countFp (fingerprint u1) (uniqueUrls batch) = 1) ∧
    (∀ (u1 u2 : String) (fetch : String → ScrapeResult),
      (urlparse u1).scheme = (urlparse u2).scheme →
      (urlparse u1).netloc = (urlparse u2).netloc →
      (urlparse u1).query = (urlparse u2).query →
      (urlparse u1).path ≠ (urlparse u2).path →
      fingerprint u1 ≠ fingerprint u2 ∧
      uniqueUrls [u1, u2] = [u1, u2] ∧
      scrapeBatch fetch [u1, u2] = [fetch u1, fetch u2]) := by
  constructor
  · intro batch u1 u2 h1 _h2 _hfp
    unfold uniqueUrls
    rw [dedup_countFp]
    have hany : batch.any (fun u => fingerprint u == fingerprint u1) = true :=
      List.any_eq_true.mpr ⟨u1, h1, by simp⟩
    simp [hany]
  · intro u1 u2 fetch hs hn hq hp
    have hfp : fingerprint u1 ≠ fingerprint u2 :=
      normOf_path_inj (urlparse u1) (urlparse u2) hs hn hq hp
    have huniq : uniqueUrls [u1, u2] = [u1, u2] := by
      simp [uniqueUrls, dedupAux, Ne.symm hfp]
    exact ⟨hfp, huniq, by simp [scrapeBatch, huniq]⟩

theorem C2_batch_dedup_by_fingerprint_witness :
    countFp (fingerprint "http://a.test/x?b=2&a=1")
        (uniqueUrls ["http://a.test/x?b=2&a=1", "http://a.test/x?a=1&b=2"]) = 1 ∧
    fingerprint "http://a.test/x" ≠ fingerprint "http://a.test/y" := by
  constructor
  · exact C2_batch_dedup_by_fingerprint.1 _ "http://a.test/x?b=2&a=1" "http://a.test/x?a=1&b=2"
      (by simp) (by simp) (by decide)
  · exact (C2_batch_dedup_by_fingerprint.2 "http://a.test/x" "http://a.test/y"
      (fun u => { url := u }) (by decide) (by decide) (by decide) (by decide)).1

/-- C3: a never-recorded origin gets `MIN_DELAY`, and after any finite
sequence of `record`/`_adjust_delay` calls (any latencies, any status codes)
every stored per-origin delay lies within `[MIN_DELAY, MAX_DELAY]`. -/
theorem C3_delay_bounds :
    (∀ origin, getDelay emptyDelays origin = MIN_DELAY) ∧
    (∀ (evs : List (String × ℚ × ℕ)) (origin : String) (v : ℚ),
      applyRecords emptyDelays evs origin = some v →
      MIN_DELAY ≤ v ∧ v ≤ MAX_DELAY) := by
  constructor
  · intro origin; rfl
  · intro evs origin v
    exact applyRecords_stored evs emptyDelays (fun d v h => by simp [emptyDelays] at h) origin v

theorem C3_delay_bounds_witness :
    MIN_DELAY ≤ (5 : ℚ) ∧ (5 : ℚ) ≤ MAX_DELAY :=
  C3_delay_bounds.2 [("a.test", 10, 200)] "a.test" 5 (by
    norm_num [applyRecords, adjustDelay, newDelayOf, emptyDelays, ratMax, ratMin,
      MIN_DELAY, MAX_DELAY, AUTOTHROTTLE_TARGET_CONCURRENCY])

/-- C4: a `record`/`_adjust_delay` call with an error status (`>= 400`) never
lowers the delay for the origin: afterwards it is equal (the update was
discarded) or strictly greater. -/
theorem C4_error_status_never_lowers_delay (delays : Delays) (domain : String)
    (latency : ℚ) (status : ℕ) (h : 400 ≤ status) :
    getDelay delays domain ≤ getDelay (adjustDelay delays domain latency status) domain ∧
      (adjustDelay delays domain latency status = delays ∨
        getDelay delays domain < getDelay (adjustDelay delays domain latency status) domain) := by
  unfold getDelay adjustDelay
  by_cases hc : status ≥ 400 ∧
      newDelayOf delays domain latency ≤ (delays domain).getD MIN_DELAY
  · rw [if_pos hc]
    exact ⟨le_refl _, Or.inl rfl⟩
  · rw [if_neg hc]
    have h2 : (delays domain).getD MIN_DELAY < newDelayOf delays domain latency := by
      by_contra hle
      push_neg at hle
      exact hc ⟨h, hle⟩
    simp only [if_pos rfl, Option.getD_some]
    exact ⟨le_of_lt h2, Or.inr h2⟩

theorem C4_error_status_never_lowers_delay_witness :
    getDelay emptyDelays "a.test" ≤
      getDelay (adjustDelay emptyDelays "a.test" 0 500) "a.test" :=
  (C4_error_status_never_lowers_delay emptyDelays "a.test" 0 500 (by norm_num)).1

/-- C5 counterexample: the rendering strategy, on a completed navigation with
a failure status, produces an outcome with `success = false` whose `html` and
`error` fields are BOTH non-empty (the rendered error page is kept), and the
static strategy on a success response whose decoded text is empty produces
`success = true` with an empty body — refuting "exactly one of {body, error}
is populated when success is false" and "body is populated when success is
true". -/
theorem C5_both_fields_populated_counterexample :
    okResult (fetchJs emptyDelays "http://a.test/x" (.navigated 404 "<html>404</html>" 100)) =
      some (jsResult 404 "http://a.test/x" "<html>404</html>" 100) ∧
    (jsResult 404 "http://a.test/x" "<html>404</html>" 100).success = false ∧
    (jsResult 404 "http://a.test/x" "<html>404</html>" 100).html ≠ "" ∧
    (jsResult 404 "http://a.test/x" "<html>404</html>" 100).error ≠ "" ∧
    (staticResult ⟨fun _ _ => none, fun _ => "L"⟩ 200 "http://a.test/x" []
        "text/html; charset=utf-8" "" [] 0).success = true ∧
    (staticResult ⟨fun _ _ => none, fun _ => "L"⟩ 200 "http://a.test/x" []
        "text/html; charset=utf-8" "" [] 0).html = "" := by
  refine ⟨rfl, by decide, by decide, by decide, by decide, by decide⟩

/-- C5 amended: when `success` is true the `error` field is empty (the body is
the decoded response, which may itself be empty); when `success` is false, a
static-strategy outcome and a retry-exhaustion outcome have an empty body and
a non-empty error, while a rendering-strategy outcome from a completed
navigation has a non-empty error but also carries the rendered body. -/
theorem C5_outcome_fields_amended :
    (∀ (codec : Codec) (status : ℕ) (finalUrl : String) (history : List String)
        (ct text : String) (body : List ℕ) (el : ℚ),
      ((staticResult codec status finalUrl history ct text body el).success = true →
        (staticResult codec status finalUrl history ct text body el).error = "") ∧
      ((staticResult codec status finalUrl history ct text body el).success = false →
        (staticResult codec status finalUrl history ct text body el).html = "" ∧
        (staticResult codec status finalUrl history ct text body el).error ≠ "")) ∧
    (∀ (status : ℕ) (url content : String) (el : ℚ),
      ((jsResult status url content el).success = true →
        (jsResult status url content el).error = "") ∧
      ((jsResult status url content el).success = false →
        (jsResult status url content el).error ≠ "")) ∧
    (∀ (f : ℕ → AttemptOutcome) (url : String), (∀ i, isFault (f i) = true) →
      (fetchWithRetry f url).result.success = false ∧
      (fetchWithRetry f url).result.html = "" ∧
      (fetchWithRetry f url).result.error ≠ "") := by
  refine ⟨?_, ?_, ?_⟩
  · intro codec status finalUrl history ct text body el
    constructor
    · intro h
      simp only [staticResult] at h ⊢
      rw [h]
      simp
    · intro h
      simp only [staticResult] at h ⊢
      rw [h]
      simp
      exact httpErrNeNil _
  · intro status url content el
    constructor
    · intro h
      simp only [jsResult] at h ⊢
      rw [h]; simp
    · intro h
      simp only [jsResult] at h ⊢
      rw [h]; simp
      exact httpErrNeNil _
  · intro f url h
    have hmain := retryAux_allFault f url h RETRY_TIMES 0 0 0
    unfold fetchWithRetry
    rw [hmain]
    simp only [Nat.zero_add]
    refine ⟨by trivial, by trivial, ?_⟩
    cases hf : f RETRY_TIMES with
    | result r => simpa [isFault, hf] using h RETRY_TIMES
    | fault n m =>
      simp only [attemptDesc, hf]
      exact faultDescNeNil n m

theorem C5_outcome_fields_amended_witness :
    (staticResult ⟨fun _ _ => none, fun _ => "L"⟩ 404 "http://a.test/x" [] "text/html" "T" [] 0).html
        = "" ∧
    (staticResult ⟨fun _ _ => none, fun _ => "L"⟩ 404 "http://a.test/x" [] "text/html" "T" [] 0).error
        ≠ "" :=
  (C5_outcome_fields_amended.1 ⟨fun _ _ => none, fun _ => "L"⟩ 404 "http://a.test/x" []
    "text/html" "T" [] 0).2 (by decide)

/-- C6 counterexample: a rendering attempt whose navigation raises (for
example a timeout) produces a failure outcome yet performs ZERO
`_adjust_delay` calls — refuting "every attempt, success, failure or raise,
performs exactly one throttle update". -/
theorem C6_fault_attempt_no_update_counterexample :
    (fetchJs emptyDelays "http://a.test/x" (.fault "Timeout 30000ms exceeded")).adjustCalls = 0 ∧
    okResult (fetchJs emptyDelays "http://a.test/x" (.fault "Timeout 30000ms exceeded")) =
      some { url := "http://a.test/x", error := "Timeout 30000ms exceeded", rendered := true } ∧
    (0 : ℕ) ≠ 1 :=
  ⟨rfl, rfl, by decide⟩

/-- C6 amended: an attempt that completes its network/browser step with a
response performs exactly one `_adjust_delay` for the URL origin with the
attempt elapsed seconds; an attempt whose step raises (static raise
propagated, rendering fault caught, missing browser) performs none and leaves
the throttle state unchanged. -/
theorem C6_one_update_per_completed_attempt :
    (∀ (codec : Codec) (delays : Delays) (url : String) (st : ℕ) (fu : String)
        (hist : List String) (ct text : String) (body : List ℕ) (el : ℚ),
      (fetchStatic codec delays url (.response st fu hist ct text body el)).adjustCalls = 1 ∧
      (fetchStatic codec delays url (.response st fu hist ct text body el)).delays =
        adjustDelay delays (String.mk (urlparse url).netloc) (el / 1000) st) ∧
    (∀ (codec : Codec) (delays : Delays) (url n m : String),
      (fetchStatic codec delays url (.fault n m)).adjustCalls = 0 ∧
      (fetchStatic codec delays url (.fault n m)).delays = delays) ∧
    (∀ (delays : Delays) (url : String) (st : ℕ) (content : String) (el : ℚ),
      (fetchJs delays url (.navigated st content el)).adjustCalls = 1 ∧
      (fetchJs delays url (.navigated st content el)).delays =
        adjustDelay delays (String.mk (urlparse url).netloc) (el / 1000) st) ∧
    (∀ (delays : Delays) (url m : String),
      (fetchJs delays url (.fault m)).adjustCalls = 0 ∧
      (fetchJs delays url (.fault m)).delays = delays) ∧
    (∀ (delays : Delays) (url : String),
      (fetchJs delays url .noBrowser).adjustCalls = 0 ∧
      (fetchJs delays url .noBrowser).delays = delays) :=
  ⟨fun _ _ _ _ _ _ _ _ _ _ => ⟨rfl, rfl⟩, fun _ _ _ _ _ => ⟨rfl, rfl⟩,
   fun _ _ _ _ _ => ⟨rfl, rfl⟩, fun _ _ _ => ⟨rfl, rfl⟩, fun _ _ => ⟨rfl, rfl⟩⟩

/-- C7: the retry loop returns a successful attempt immediately (success on
the third call yields exactly three invocations and two backoffs), and a
failure with a status outside the retryable set is returned immediately with
one invocation and no backoff. -/
theorem C7_retry_short_circuit :
    (∀ (f : ℕ → AttemptOutcome) (url : String) (r : ScrapeResult),
      causesRetry (f 0) = true → causesRetry (f 1) = true →
      f 2 = .result r → r.success = true →
      fetchWithRetry f url = ⟨r, 3, 2⟩) ∧
    (∀ (f : ℕ → AttemptOutcome) (url : String) (r : ScrapeResult),
      f 0 = .result r → r.success = false →
      RETRY_HTTP_CODES.contains r.status = false →
      fetchWithRetry f url = ⟨r, 1, 0⟩) := by
  constructor
  · intro f url r h0 h1 h2 hs
    unfold fetchWithRetry RETRY_TIMES
    have step : ∀ j inv bo rem, causesRetry (f j) = true →
        retryAux f url j inv bo (rem + 1) = retryAux f url (j + 1) (inv + 1) (bo + 1) rem := by
      intro j inv bo rem hj
      cases hf : f j with
      | fault n m => simp [retryAux, hf]
      | result r0 =>
        rw [hf] at hj
        simp only [causesRetry, Bool.and_eq_true, Bool.not_eq_true'] at hj
        have hmem : r0.status ∈ RETRY_HTTP_CODES := by
          simpa [List.elem_iff] using hj.2
        simp [retryAux, hf, hj.1, hmem]
    rw [show (3 : ℕ) = 2 + 1 from rfl, step 0 0 0 2 h0]
    rw [show (2 : ℕ) = 1 + 1 from rfl, step 1 1 1 1 h1]
    simp [retryAux, h2, hs]
  · intro f url r h0 hs hnr
    unfold fetchWithRetry RETRY_TIMES
    have hmem : r.status ∉ RETRY_HTTP_CODES := by
      simpa [List.elem_iff] using hnr
    simp [retryAux, h0, hs, hmem]

theorem C7_retry_short_circuit_witness :
    fetchWithRetry
        (fun i => if i < 2 then .result { url := "u", status := 503 }
                  else .result { url := "u", status := 200, success := true, html := "ok" }) "u"
      = ⟨{ url := "u", status := 200, success := true, html := "ok" }, 3, 2⟩ ∧
    fetchWithRetry (fun _ => .result { url := "u", status := 404 }) "u"
      = ⟨{ url := "u", status := 404 }, 1, 0⟩ := by
  constructor
  · exact C7_retry_short_circuit.1 _ "u" _ (by decide) (by decide) rfl rfl
  · exact C7_retry_short_circuit.2 _ "u" _ rfl rfl (by decide)

/-- C8: `_decode_response` decodes with a charset declared via
`charset=<name>` in the first 4096 body bytes when the content-type header
declares none (rather than defaulting to UTF-8), and when every codec lookup
or decode fails it falls back to the lossy decode rather than raising. -/
theorem C8_decode_declared_charset_and_fallback :
    (∀ (codec : Codec) (ct text : String) (raw : List ℕ) (w : List ℕ) (s : String),
      hasSubstr (lowerStr ct.data) "charset".data = false →
      searchCharset (raw.take 4096) = some w →
      bytesToStr w = "gb2312" →
      codec.decode "gb2312" raw = some s →
      decodeResponse codec ct text raw = s) ∧
    (∀ (codec : Codec) (ct text : String) (raw : List ℕ),
      hasSubstr (lowerStr ct.data) "charset".data = false →
      (∀ cs, codec.decode cs raw = none) →
      decodeResponse codec ct text raw = codec.lossy raw) := by
  constructor
  · intro codec ct text raw w s hct hs hw hdec
    unfold decodeResponse
    rw [hct]
    simp only [Bool.false_eq_true, if_false, hs, hw, hdec]
  · intro codec ct text raw hct hall
    unfold decodeResponse
    rw [hct]
    cases hs : searchCharset (raw.take 4096) <;>
      simp only [Bool.false_eq_true, if_false, hs, hall]

theorem C8_decode_declared_charset_and_fallback_witness :
    decodeResponse
        ⟨fun cs _ => if cs = "gb2312" then some "GB-DECODED" else none, fun _ => "LOSSY"⟩
        "text/html" "HTTPX-TEXT" (strBytes "<html><meta charset=\"gb2312\"></html>")
      = "GB-DECODED" :=
  C8_decode_declared_charset_and_fallback.1 _ "text/html" "HTTPX-TEXT" _
    (strBytes "gb2312") "GB-DECODED" (by decide) (by decide) (by decide) (by decide)

/-- C10: the fragment is dropped by normalization — appending `#fragment` to
any URL leaves its fingerprint unchanged, so a batch of the two URLs yields a
single outcome. -/
theorem C10_fragment_dropped (u f : String) :
    fingerprint (u ++ "#" ++ f) = fingerprint u ∧
    uniqueUrls [u, u ++ "#" ++ f] = [u] := by
  have hfp := fingerprint_append_hash u f
  refine ⟨hfp, ?_⟩
  simp [uniqueUrls, dedupAux, hfp]

end Scraper
